import Mathlib

/-! Verification of the JsModel repository.

A shallow embedding of the query `Builder` (src/Builder.js), the base
`Model` (src/Model.js), the `ModelCollection` pagination logic
(src/ModelCollection.js) and the jQuery HTTP driver
(src/HttpDrivers/JqueryHttpDriver.js), together with theorems settling
the specification claims.

JavaScript values are modelled by `JSVal`; mutable objects (arrays and
plain objects) live in an explicit `Heap` and are denoted by references,
so that aliasing and mutation of values shared between the builder and
its callers can be reasoned about.  Numbers are modelled as integers
(the repository only computes with integral values); NaN is a separate
value.  Thrown JavaScript exceptions are modelled with `Except`. -/

set_option autoImplicit false

namespace JsModel

/-- Address of a mutable JavaScript object (array or plain object) in the heap. -/
abbrev Addr := Nat

/-- JavaScript values as stored in attributes, constraints and variables.
`momentOf v` models a Moment date object wrapping the raw stored value `v`. -/
inductive JSVal where
  | undefVal
  | null
  | nan
  | bool (b : Bool)
  | num (n : Int)
  | str (s : String)
  | ref (a : Addr)
  | momentOf (v : JSVal)
  deriving DecidableEq, Repr

/-- Heap cells: a JavaScript array or a plain object with ordered string keys. -/
inductive HObj where
  | arr (xs : List JSVal)
  | obj (fs : List (String × JSVal))
  deriving DecidableEq, Repr

/-- Association-list lookup by key (first match, as JavaScript property lookup
and the js_collection `get` by primary key). -/
def assocGet {κ α : Type} [DecidableEq κ] : List (κ × α) → κ → Option α
  | [], _ => none
  | (k0, v0) :: rest, k => if k0 = k then some v0 else assocGet rest k

/-- Association-list assignment: update the first entry with the key in place
(keeping its position) or append a new entry, as JavaScript property
assignment on ordered objects. -/
def assocSet {κ α : Type} [DecidableEq κ] : List (κ × α) → κ → α → List (κ × α)
  | [], k, v => [(k, v)]
  | (k0, v0) :: rest, k, v => if k0 = k then (k0, v) :: rest else (k0, v0) :: assocSet rest k v

/-- Association-list deletion of all entries with the key (the JavaScript
`delete` operator; keys are unique in all states the code builds). -/
def assocDrop {κ α : Type} [DecidableEq κ] : List (κ × α) → κ → List (κ × α)
  | [], _ => []
  | (k0, v0) :: rest, k => if k0 = k then assocDrop rest k else (k0, v0) :: assocDrop rest k

/-- The modelled JavaScript heap: allocated cells and the next fresh address. -/
structure Heap where
  cells : List (Addr × HObj)
  next : Addr
  deriving DecidableEq, Repr

def Heap.lookup (h : Heap) (a : Addr) : Option HObj := assocGet h.cells a

def Heap.write (h : Heap) (a : Addr) (o : HObj) : Heap := ⟨assocSet h.cells a o, h.next⟩

def Heap.alloc (h : Heap) (o : HObj) : JSVal × Heap :=
  (.ref h.next, ⟨h.cells ++ [(h.next, o)], h.next + 1⟩)

def emptyHeap : Heap := ⟨[], 0⟩

/-- Heap-free denotation of a value: references resolved to their contents.
`missing` marks a dangling reference or exhausted fuel (never produced on
well-formed heaps with enough fuel). -/
inductive JSTree where
  | undefVal
  | null
  | nan
  | bool (b : Bool)
  | num (n : Int)
  | str (s : String)
  | missing
  | arr (xs : List JSTree)
  | obj (fs : List (String × JSTree))
  | momentOf (t : JSTree)

/-- Resolve a value against the heap, chasing references up to `fuel` levels. -/
def resolveVal : Nat → Heap → JSVal → JSTree
  | _, _, .undefVal => .undefVal
  | _, _, .null => .null
  | _, _, .nan => .nan
  | _, _, .bool b => .bool b
  | _, _, .num n => .num n
  | _, _, .str s => .str s
  | 0, _, .ref _ => .missing
  | fuel + 1, h, .ref a =>
    match h.lookup a with
    | some (.arr xs) => .arr (xs.map (resolveVal fuel h))
    | some (.obj fs) => .obj (fs.map (fun p => (p.1, resolveVal fuel h p.2)))
    | none => .missing
  | 0, _, .momentOf _ => .missing
  | fuel + 1, h, .momentOf v => .momentOf (resolveVal fuel h v)

mutual

/-- Allocate a fresh deep copy of a resolved tree in the heap (the behaviour
of the `clone` package used by the builder). -/
def allocTree : JSTree → Heap → JSVal × Heap
  | .undefVal, h => (.undefVal, h)
  | .null, h => (.null, h)
  | .nan, h => (.nan, h)
  | .bool b, h => (.bool b, h)
  | .num n, h => (.num n, h)
  | .str s, h => (.str s, h)
  | .missing, h => (.undefVal, h)
  | .momentOf t, h =>
    let (v, h1) := allocTree t h
    (.momentOf v, h1)
  | .arr xs, h =>
    let (vs, h1) := allocTreeList xs h
    h1.alloc (.arr vs)
  | .obj fs, h =>
    let (gs, h1) := allocTreeFields fs h
    h1.alloc (.obj gs)

/-- Allocate copies of a list of trees, left to right. -/
def allocTreeList : List JSTree → Heap → List JSVal × Heap
  | [], h => ([], h)
  | t :: ts, h =>
    let (v, h1) := allocTree t h
    let (vs, h2) := allocTreeList ts h1
    (v :: vs, h2)

/-- Allocate copies of the fields of an object, left to right. -/
def allocTreeFields : List (String × JSTree) → Heap → List (String × JSVal) × Heap
  | [], h => ([], h)
  | (k, t) :: ts, h =>
    let (v, h1) := allocTree t h
    let (vs, h2) := allocTreeFields ts h1
    ((k, v) :: vs, h2)

end

/-- Deep copy of a value: resolve it and re-allocate the copy at fresh
addresses (primitive values are returned unchanged). -/
def cloneVal (fuel : Nat) (h : Heap) (v : JSVal) : JSVal × Heap :=
  allocTree (resolveVal fuel h v) h

mutual

/-- JavaScript `String(x)` coercion of a resolved value. -/
def treeToStr : JSTree → String
  | .undefVal => "undefined"
  | .null => "null"
  | .nan => "NaN"
  | .bool b => if b then "true" else "false"
  | .num n => toString n
  | .str s => s
  | .missing => "undefined"
  | .arr xs => String.intercalate "," (arrParts xs)
  | .obj _ => "[object Object]"
  | .momentOf t => treeToStr t

/-- Elements of an array rendered for `Array.prototype.toString`: null and
undefined elements render empty. -/
def arrParts : List JSTree → List String
  | [] => []
  | .undefVal :: xs => "" :: arrParts xs
  | .null :: xs => "" :: arrParts xs
  | x :: xs => treeToStr x :: arrParts xs

end

/-- Characters left unescaped by `encodeURIComponent`. -/
def uriUnreserved (c : Char) : Bool :=
  (c ≥ 'A' && c ≤ 'Z') || (c ≥ 'a' && c ≤ 'z') || (c ≥ '0' && c ≤ '9') ||
    c = '-' || c = '_' || c = '.' || c = '!' || c = '~' || c = '*' || c = '\'' ||
    c = '(' || c = ')'

/-- UTF-8 bytes of a character. -/
def utf8Bytes (c : Char) : List Nat :=
  let n := c.toNat
  if n < 0x80 then [n]
  else if n < 0x800 then [0xC0 + n / 64, 0x80 + n % 64]
  else if n < 0x10000 then [0xE0 + n / 4096, 0x80 + (n / 64) % 64, 0x80 + n % 64]
  else [0xF0 + n / 262144, 0x80 + (n / 4096) % 64, 0x80 + (n / 64) % 64, 0x80 + n % 64]

/-- Upper-case hexadecimal digit. -/
def hexDigit (n : Nat) : Char :=
  if n < 10 then Char.ofNat (48 + n) else Char.ofNat (55 + n)

/-- Percent-encoding of one byte. -/
def percentByte (b : Nat) : String :=
  String.mk ['%', hexDigit (b / 16), hexDigit (b % 16)]

/-- The JavaScript `encodeURIComponent` function. -/
def encodeURIComponent (s : String) : String :=
  String.join (s.data.map (fun c =>
    if uriUnreserved c then String.singleton c
    else String.join ((utf8Bytes c).map percentByte)))

/-- The exceptions thrown by the repository, plus JavaScript TypeErrors
raised when a missing method or property is used. -/
inductive JsError where
  | duplicateVariable (msg : String)
  | unknownVariable (msg : String)
  | missingQueryBuilder (msg : String)
  | invalidAttribute (msg : String)
  | typeError (msg : String)
  deriving DecidableEq, Repr

/-- JavaScript strict equality on modelled values.  NaN is unequal to
everything; references compare by address. -/
def jsStrictEq : JSVal → JSVal → Bool
  | .undefVal, .undefVal => true
  | .null, .null => true
  | .bool a, .bool b => a == b
  | .num a, .num b => a == b
  | .str a, .str b => a == b
  | .ref a, .ref b => a == b
  | _, _ => false

/-- JavaScript ToNumber on the values the repository computes with
(non-integral strings are treated as NaN, returned as `none`). -/
def jsToNumber : JSVal → Option Int
  | .num n => some n
  | .bool b => some (if b then 1 else 0)
  | .null => some 0
  | .str s => if s = "" then some 0 else s.toInt?
  | _ => none

/-- Booleans coerce to numbers before a loose comparison. -/
def boolToNum : JSVal → JSVal
  | .bool b => .num (if b then 1 else 0)
  | v => v

/-- JavaScript loose equality on the values the repository compares:
undefined and null are equal to each other, numbers and numeric strings
compare by value, objects compare by reference.  (ToPrimitive coercion of
object operands against primitives is not modelled; no state the
repository builds compares an object with a primitive.) -/
def jsLooseEq (v w : JSVal) : Bool :=
  match boolToNum v, boolToNum w with
  | .undefVal, .undefVal => true
  | .undefVal, .null => true
  | .null, .undefVal => true
  | .null, .null => true
  | .num a, .num b => a == b
  | .str a, .str b => a == b
  | .num a, .str s => (jsToNumber (.str s)).any (fun b => a == b)
  | .str s, .num b => (jsToNumber (.str s)).any (fun a => a == b)
  | .ref a, .ref b => a == b
  | _, _ => false

/-- JavaScript `x + 1` on the values the page counter can hold: numbers
increment, strings concatenate the digit, anything else follows ToNumber
(NaN when not numeric). -/
def jsPlus1 : JSVal → JSVal
  | .str s => .str (s ++ "1")
  | v => match jsToNumber v with
    | some n => .num (n + 1)
    | none => .nan

/-- JavaScript `x - 1`: both operands coerce with ToNumber. -/
def jsMinus1 (v : JSVal) : JSVal :=
  match jsToNumber v with
  | some n => .num (n - 1)
  | none => .nan

/-! Section: Builder (src/Builder.js)

Constraints are kept in a js_collection `Collection` keyed by `filter`,
appended variables in one keyed by `name`; both are ordered lists where
`get` finds the first entry with the key and `push` appends.  The
constructor pre-seeds the variables `limit = 15` and `page = 1`. -/

/-- One `where` constraint of a query. -/
structure Constraint where
  filter : String
  value : JSVal
  deriving DecidableEq, Repr

/-- One appended query variable. -/
structure Variable where
  name : String
  value : JSVal
  deriving DecidableEq, Repr

/-- The query builder state: its constraints and appended variables. -/
structure Builder where
  constraints : List Constraint
  appends : List Variable
  deriving DecidableEq, Repr

/-- Embeds `new Builder(model)`: no constraints, variables seeded with
`limit = 15` and `page = 1`. -/
def mkBuilder : Builder :=
  ⟨[], [⟨"limit", .num 15⟩, ⟨"page", .num 1⟩]⟩

namespace Builder

/-- Embeds `this._constraints.get(filter)`. -/
def getConstraint (b : Builder) (filter : String) : Option Constraint :=
  b.constraints.find? (fun c => c.filter == filter)

/-- Embeds `Builder.hasConstraint`. -/
def hasConstraint (b : Builder) (filter : String) : Bool :=
  (b.getConstraint filter).isSome

/-- Embeds `value instanceof Object` for stored values (arrays, plain objects and
Moment objects are Objects; primitives are not). -/
def isObjectVal : JSVal → Bool
  | .ref _ => true
  | .momentOf _ => true
  | _ => false

/-- Embeds `Builder.getConstraintValue`: the constraint value, deep-copied when it
is an object; null when the constraint does not exist. -/
def getConstraintValue (fuel : Nat) (h : Heap) (b : Builder) (filter : String) : JSVal × Heap :=
  match b.getConstraint filter with
  | some c => if isObjectVal c.value then cloneVal fuel h c.value else (c.value, h)
  | none => (.null, h)

/-- Embeds `this.appends.get(name)`. -/
def getVar (b : Builder) (name : String) : Option Variable :=
  b.appends.find? (fun it => it.name == name)

/-- Embeds `Builder.hasVariable`. -/
def hasVariable (b : Builder) (name : String) : Bool :=
  (b.getVar name).isSome

/-- Embeds `Builder.getVariable`; the source defaults `default_result` to null,
so callers that omit it pass null here. -/
def getVariable (b : Builder) (name : String) (default_result : JSVal) : JSVal :=
  match b.getVar name with
  | some it => it.value
  | none => default_result

/-- Update the value of the first variable with the name in place (the item
returned by the collection `get` is mutated). -/
def updateFirstVar : List Variable → String → JSVal → List Variable
  | [], _, _ => []
  | it :: rest, name, v =>
    if it.name == name then ⟨it.name, v⟩ :: rest else it :: updateFirstVar rest name v

/-- Builder state after mutating the first variable with the name. -/
def setVarValue (b : Builder) (name : String) (v : JSVal) : Builder :=
  ⟨b.constraints, updateFirstVar b.appends name v⟩

/-- Embeds `Builder.append`: push a new variable, or throw DuplicateVariableException
when one with the name already exists (the builder is left unchanged). -/
def append (b : Builder) (name : String) (value : JSVal) : Except JsError Builder :=
  if b.hasVariable name then
    .error (.duplicateVariable ("Variable \"" ++ name ++ "\" has already been appended!"))
  else
    .ok ⟨b.constraints, b.appends ++ [⟨name, value⟩]⟩

/-- Embeds `Builder.updateVariable`: update an existing variable, or throw
UnknownVariableException when none with the name exists. -/
def updateVariable (b : Builder) (name : String) (value : JSVal) : Except JsError Builder :=
  if b.hasVariable name then
    .ok (b.setVarValue name value)
  else
    .error (.unknownVariable ("Cannot update unknown variable with name \"" ++ name ++ "\"!"))

/-- Update the value of the first constraint with the filter name in place. -/
def updateFirstConstraint : List Constraint → String → JSVal → List Constraint
  | [], _, _ => []
  | c :: rest, filter, v =>
    if c.filter == filter then ⟨c.filter, v⟩ :: rest else c :: updateFirstConstraint rest filter v

/-- Embeds `Builder.where`: upsert a constraint by filter name. -/
def «where» (b : Builder) (filter : String) (value : JSVal) : Builder :=
  match b.getConstraint filter with
  | none => ⟨b.constraints ++ [⟨filter, value⟩], b.appends⟩
  | some _ => ⟨updateFirstConstraint b.constraints filter value, b.appends⟩

/-- Embeds `Builder.getLimit`: the limit variable value, or -1 when absent. -/
def getLimit (b : Builder) : JSVal :=
  match b.getVar "limit" with
  | some it => it.value
  | none => .num (-1)

/-- Embeds `Builder.setLimit`: update the limit variable or append it. -/
def setLimit (b : Builder) (value : JSVal) : Except JsError Builder :=
  if b.hasVariable "limit" then b.updateVariable "limit" value
  else b.append "limit" value

/-- Embeds `Builder.currentPage`: reads `this.appends.get("page").value`; a
TypeError if the page variable is absent. -/
def currentPage (b : Builder) : Except JsError JSVal :=
  match b.getVar "page" with
  | some it => .ok it.value
  | none => .error (.typeError "Cannot read property value of null")

/-- Embeds `Builder.setPage`: assigns `this.appends.get("page").value = page`. -/
def setPage (b : Builder) (page : JSVal) : Except JsError Builder :=
  match b.getVar "page" with
  | some _ => .ok (b.setVarValue "page" page)
  | none => .error (.typeError "Cannot set property value of null")

/-- Embeds `Builder.incrementPage`: `setPage(currentPage() + 1)`. -/
def incrementPage (b : Builder) : Except JsError Builder := do
  let p ← b.currentPage
  b.setPage (jsPlus1 p)

/-- Embeds `Builder.decrementPage`: `setPage(currentPage() - 1)`. -/
def decrementPage (b : Builder) : Except JsError Builder := do
  let p ← b.currentPage
  b.setPage (jsMinus1 p)

/-- Embeds `Builder.orderBy`: update or append the `order` variable with the array
of orderings (allocated on the heap, as a JavaScript rest argument). -/
def orderBy (h : Heap) (b : Builder) (orderings : List JSVal) : (Except JsError Builder) × Heap :=
  let (v, h1) := h.alloc (.arr orderings)
  if b.hasVariable "order" then (b.updateVariable "order" v, h1)
  else (b.append "order" v, h1)

/-- Embeds `Builder.orderingBy`: a deep copy of the `order` variable, or null when
no ordering is applied. -/
def orderingBy (fuel : Nat) (h : Heap) (b : Builder) : JSVal × Heap :=
  if b.hasVariable "order" then cloneVal fuel h (b.getVariable "order" .null)
  else (.null, h)

/-- One query-string segment for a constraint:
`filters[name][]=value`, preceded by its separator. -/
def constraintSeg (first : Bool) (filter : String) (t : JSTree) : String :=
  (if first then "?" else "&") ++ "filters[" ++ encodeURIComponent filter ++ "][]=" ++
    encodeURIComponent (treeToStr t)

/-- The query-string segments contributed by one appended variable: one
`name[]=element` per array element, one `name[key]=value` per object entry,
or a single `name=value`.  The `first` flag is only consulted, not updated,
inside the per-element loops, exactly as in the source. -/
def appendSegs (first : Bool) (name : String) (t : JSTree) : String :=
  match t with
  | .arr xs =>
    String.join (xs.map (fun x =>
      (if first then "?" else "&") ++ encodeURIComponent name ++ "[]=" ++
        encodeURIComponent (treeToStr x)))
  | .obj fs =>
    String.join (fs.map (fun kv =>
      (if first then "?" else "&") ++ encodeURIComponent name ++ "[" ++
        encodeURIComponent kv.1 ++ "]=" ++ encodeURIComponent (treeToStr kv.2)))
  | _ =>
    (if first then "?" else "&") ++ encodeURIComponent name ++ "=" ++
      encodeURIComponent (treeToStr t)

/-- Query-string serialization over resolved constraint and variable values:
constraints first, then appended variables, each in insertion order. -/
def pureQS (cs : List (String × JSTree)) (vars : List (String × JSTree)) : String :=
  let step1 := cs.foldl (fun (acc : String × Bool) c =>
    (acc.1 ++ constraintSeg acc.2 c.1 c.2, false)) ("", true)
  let step2 := vars.foldl (fun (acc : String × Bool) it =>
    (acc.1 ++ appendSegs acc.2 it.1 it.2, false)) step1
  step2.1

/-- Embeds `Builder.toQueryString`: resolve every stored value against the heap and
serialize. -/
def toQueryString (fuel : Nat) (h : Heap) (b : Builder) : String :=
  pureQS (b.constraints.map (fun c => (c.filter, resolveVal fuel h c.value)))
    (b.appends.map (fun it => (it.name, resolveVal fuel h it.value)))

end Builder

/-! Section: ModelCollection (src/ModelCollection.js)

Only the pagination state matters for the claims: the optional back
reference to the builder that produced the collection.  The network fetch
triggered by `loadNextPage` is abstracted by its outcome; exactly one of
the two callbacks of a request runs. -/

/-- Outcome of one query execution: the 200 path or an error status path. -/
inductive FetchOutcome where
  | success
  | failure
  deriving DecidableEq, Repr

namespace ModelCollection

/-- Embeds `ModelCollection.loadNextPage`: requires a builder with a limit other
than -1, increments the page, issues the query (the returned flag), and on
failure decrements the page back inside the error wrapper.  The resulting
builder state is returned. -/
def loadNextPage (query : Option Builder) (outcome : FetchOutcome) :
    Except JsError (Builder × Bool) :=
  match query with
  | some b =>
    if !(jsStrictEq b.getLimit (.num (-1))) then do
      let b1 ← b.incrementPage
      match outcome with
      | .success => .ok (b1, true)
      | .failure => do
        let b2 ← b1.decrementPage
        .ok (b2, true)
    else
      .error (.missingQueryBuilder "Cannot load next page; no query builder set for model collection!")
  | none =>
    .error (.missingQueryBuilder "Cannot load next page; no query builder set for model collection!")

end ModelCollection

/-! Section: HttpRequest and JqueryHttpDriver (src/HttpDrivers/JqueryHttpDriver.js) -/

/-- Modelled from the spec: the HttpRequest class itself is not among the
source files (only its callers are).  Per the spec it is a mutable value
object carrying an ordered header list of pairs that permits duplicate
names, a response data type, an HTTP method, a URL and a body. -/
structure HttpRequest where
  headers : List (String × String)
  dataType : String
  method : String
  url : String
  deriving DecidableEq, Repr

/-- The settings object handed to `jQuery.ajax` by the driver. -/
structure AjaxSettings where
  headers : List (String × String)
  dataType : String
  method : String
  url : String
  deriving DecidableEq, Repr

namespace JqueryHttpDriver

/-- Embeds `JqueryHttpDriver._parseHeaders`: folds the ordered header list into a
plain name-keyed object (`parsed_headers[name] = value`). -/
def _parseHeaders (headers : List (String × String)) : List (String × String) :=
  headers.foldl (fun acc p => assocSet acc p.1 p.2) []

/-- Embeds `JqueryHttpDriver.execute`: the settings forwarded to the `jQuery.ajax`
transport call.  (The `HttpDriver.execute` parameter check always passes
here since the argument is an `HttpRequest` by type.) -/
def execute (request : HttpRequest) : AjaxSettings :=
  ⟨_parseHeaders request.headers, request.dataType, request.method, request.url⟩

end JqueryHttpDriver

/-! Section: Model (src/Model.js)

A model instance owns the private state object (url, primary key names,
attribute storage, original snapshot, syncing and exists flags) plus the
properties defined on the instance itself: plain data properties created by
assignment (enumerable) and accessor/mutator pairs installed with
`Object.defineProperty` (non-enumerable when created fresh, keeping the
previous enumerability when they redefine an existing data property).  The
base class declares no `get<Name>Attribute`/`set<Name>Attribute` methods
(the constructor scan of the prototype adds nothing), so only the default
accessors and the date accessors for `created_at`/`updated_at` occur. -/

/-- An instance property: a plain data property or an installed
accessor/mutator pair backed by the attribute storage. -/
inductive PropKind where
  | dataProp (v : JSVal)
  | accessorProp
  deriving DecidableEq, Repr

/-- One own property of a model instance, with its enumerability. -/
structure OwnProp where
  name : String
  kind : PropKind
  enumerable : Bool
  deriving DecidableEq, Repr

/-- The state of one Model instance. -/
structure ModelState where
  url : String
  primary_key : String
  primary_filter : String
  original : List (String × JSVal)
  attributes : List (String × JSVal)
  syncing : Bool
  existsFlag : Bool
  props : List OwnProp
  deriving DecidableEq, Repr

namespace ModelState

/-- Embeds `Model.getDates`. -/
def getDates : List String := ["created_at", "updated_at"]

/-- First own property with the name. -/
def findProp (props : List OwnProp) (name : String) : Option OwnProp :=
  props.find? (fun p => p.name == name)

/-- Change the kind of the first property with the name, keeping its
position and enumerability. -/
def setPropKind : List OwnProp → String → PropKind → List OwnProp
  | [], _, _ => []
  | p :: rest, name, kind =>
    if p.name == name then ⟨p.name, kind, p.enumerable⟩ :: rest
    else p :: setPropKind rest name kind

/-- Embeds `Object.defineProperty(this, name, {configurable, get, set})`: redefines
an existing property (keeping its enumerability) or adds a fresh
non-enumerable accessor property. -/
def defineAccessorProp (m : ModelState) (name : String) : ModelState :=
  if (findProp m.props name).isSome then
    { m with props := setPropKind m.props name .accessorProp }
  else
    { m with props := m.props ++ [⟨name, .accessorProp, false⟩] }

/-- The default accessor for an attribute: date attributes wrap the stored
value in a fresh Moment (null when the slot is undefined), other attributes
read the attribute storage directly. -/
def accessorGet (m : ModelState) (name : String) : JSVal :=
  if getDates.contains name then
    match assocGet m.attributes name with
    | none => .null
    | some .undefVal => .null
    | some v => .momentOf v
  else
    match assocGet m.attributes name with
    | some v => v
    | none => .undefVal

/-- Property read `this[name]`. -/
def jsGetProp (m : ModelState) (name : String) : JSVal :=
  match findProp m.props name with
  | some p =>
    match p.kind with
    | .dataProp v => v
    | .accessorProp => accessorGet m name
  | none => .undefVal

/-- Embeds `value instanceof Moment ? value.format() : value` in the default date
mutator; formatting is modelled as the raw value the Moment wraps. -/
def momentUnwrap : JSVal → JSVal
  | .momentOf w => w
  | v => v

/-- Property write `this[name] = v`: runs the mutator when an accessor
property is installed, overwrites a data property in place, or creates a
fresh enumerable data property. -/
def jsSetProp (m : ModelState) (name : String) (v : JSVal) : ModelState :=
  match findProp m.props name with
  | some p =>
    match p.kind with
    | .accessorProp =>
      if getDates.contains name then
        { m with attributes := assocSet m.attributes name (momentUnwrap v) }
      else
        { m with attributes := assocSet m.attributes name v }
    | .dataProp _ => { m with props := setPropKind m.props name (.dataProp v) }
  | none => { m with props := m.props ++ [⟨name, .dataProp v, true⟩] }

/-- Embeds `Model.fill`: assign every supplied attribute through `this[key] = v`,
rejecting the reserved name underscore. -/
def fill (m : ModelState) (attrs : List (String × JSVal)) : Except JsError ModelState :=
  attrs.foldlM (fun acc kv =>
    if kv.1 == "_" then
      .error (.invalidAttribute ("Invalid attribute name: \"" ++ kv.1 ++ "\"!"))
    else
      .ok (jsSetProp acc kv.1 kv.2)) m

/-- Embeds `new Model(attributes)`: fresh private state, date accessors installed,
then `fill`. -/
def mkModel (attrs : List (String × JSVal)) : Except JsError ModelState :=
  let m0 : ModelState := ⟨"/", "id", "id", [], [], false, false, []⟩
  let m1 := getDates.foldl (fun acc d => defineAccessorProp acc d) m0
  fill m1 attrs

/-- The method call `this.exists()`: a TypeError when an instance property
shadows the prototype method (its value is never a function), otherwise the
private exists flag. -/
def callExists (m : ModelState) : Except JsError Bool :=
  match findProp m.props "exists" with
  | some _ => .error (.typeError "this.exists is not a function")
  | none => .ok m.existsFlag

/-- Embeds `Model._hydrate`: copy the supplied attributes into the attribute
storage (also into the original snapshot when `this.exists()` is already
true), install accessors for every stored attribute, then mark the model as
existing. -/
def _hydrate (m : ModelState) (attrs : List (String × JSVal)) : Except JsError ModelState := do
  let m1 ← attrs.foldlM (fun acc kv => do
    if kv.1 == "_" then
      throw (.invalidAttribute ("Invalid attribute name: \"" ++ kv.1 ++ "\"!"))
    let acc1 := { acc with attributes := assocSet acc.attributes kv.1 kv.2 }
    let ex ← callExists acc1
    pure (if ex then { acc1 with original := assocSet acc1.original kv.1 kv.2 } else acc1)) m
  let m2 := m1.attributes.foldl (fun acc kv => defineAccessorProp acc kv.1) m1
  pure { m2 with existsFlag := true }

/-- Embeds `Model.getAttribute`. -/
def getAttribute (m : ModelState) (name : String) : JSVal :=
  match assocGet m.attributes name with
  | some v => if v == .undefVal then jsGetProp m name else v
  | none => jsGetProp m name

/-- Embeds `Model.getOriginal` (undefined when no original value exists). -/
def getOriginal (m : ModelState) (name : String) : JSVal :=
  (assocGet m.original name).getD .undefVal

/-- Embeds `Model.hasOriginal`. -/
def hasOriginal (m : ModelState) (name : String) : Bool :=
  match assocGet m.original name with
  | some v => !(v == .undefVal)
  | none => false

/-- Embeds `Model.getAttributes`: the stored attributes read through their
accessors, then every enumerable own property except underscore. -/
def getAttributes (m : ModelState) : List (String × JSVal) :=
  let step1 := m.attributes.foldl (fun acc kv => assocSet acc kv.1 (jsGetProp m kv.1)) []
  m.props.foldl (fun acc p =>
    if p.enumerable then assocSet acc p.name (jsGetProp m p.name) else acc) step1

/-- Embeds `typeof value === "object"` (null included; the callers guard null). -/
def typeofObject : JSVal → Bool
  | .ref _ => true
  | .momentOf _ => true
  | .null => true
  | _ => false

/-- Embeds `Model.dirty`: every attribute whose current value loosely differs from
its original snapshot value. -/
def dirty (m : ModelState) : List (String × JSVal) :=
  (getAttributes m).foldl (fun acc kv =>
    let value := getAttribute m kv.1
    if !(jsLooseEq value (getOriginal m kv.1)) then
      if !(jsLooseEq value .null) && typeofObject value then
        assocSet acc kv.1 (getAttribute m kv.1)
      else
        assocSet acc kv.1 value
    else acc) []

/-- Embeds `Model.isSyncing`. -/
def isSyncing (m : ModelState) : Bool := m.syncing

/-- Embeds `Model.reset`: restore every stored attribute to its original value
(dropping attributes without one), then delete every enumerable own
property except underscore. -/
def reset (m : ModelState) : ModelState :=
  let keys := m.attributes.map Prod.fst
  let m1 := keys.foldl (fun acc k =>
    if hasOriginal acc k then
      { acc with attributes := assocSet acc.attributes k (getOriginal acc k) }
    else
      { acc with attributes := assocDrop acc.attributes k }) m
  { m1 with props := m1.props.filter (fun p => !p.enumerable) }

/-- Outcome of the network round trip behind `save`: the decoded `data`
payload (a list of records) on 200, or the failing status code. -/
inductive SaveOutcome where
  | ok (data : List (List (String × JSVal)))
  | err (code : Int)
  deriving DecidableEq, Repr

/-- Embeds `Builder.encapsulateData`: wrap every record in a fresh model and assign
`model.exists = true` (a plain enumerable data property shadowing the
`exists` method). -/
def encapsulateData (data : List (List (String × JSVal))) : Except JsError (List ModelState) :=
  data.mapM (fun r => do
    let rm ← mkModel r
    pure (jsSetProp rm "exists" (.bool true)))

/-- Embeds `Model.save`: set syncing, compute the dirty attributes (forcing in the
primary key) for the request body, then run the update path for existing
models or the insert path otherwise, applying the response callback of the
outcome.  Only the state visible after the callbacks is returned; the
request itself has no further observable effect. -/
def save (m : ModelState) (outcome : SaveOutcome) : Except JsError ModelState := do
  let m1 := { m with syncing := true }
  let _attrs := assocSet (dirty m1) m1.primary_key (getAttribute m1 m1.primary_key)
  let ex ← callExists m1
  if ex then
    match outcome with
    | .ok data => do
      let models ← encapsulateData data
      let m2 := { m1 with syncing := false }
      models.foldlM (fun acc rm =>
        if jsLooseEq (jsGetProp rm "customer_contact_id") (jsGetProp acc "customer_contact_id") then
          _hydrate acc (getAttributes rm)
        else
          pure acc) m2
    | .err code => pure (if code == 422 then { m1 with syncing := false } else m1)
  else
    match outcome with
    | .ok data => do
      let models ← encapsulateData data
      match models with
      | [] => .error (.typeError "Cannot read properties of undefined")
      | rm :: _ => do
        let m2 := { m1 with syncing := false }
        let m3 ← _hydrate m2 (getAttributes rm)
        pure { m3 with existsFlag := true }
    | .err code => pure (if code == 422 then { m1 with syncing := false } else m1)

/-- Embeds `Model.deleteModel`: sets syncing, then for an existing model evaluates
`this.query().where(...).delete(...)` — but the builder class defines
`deleteResults` and no method named `delete`, so that call is a TypeError
and no request is ever issued.  For a non-existent model nothing further
happens.  The second component lists the URLs of issued requests (always
empty). -/
def deleteModel (m : ModelState) : Except JsError (ModelState × List String) := do
  let m1 := { m with syncing := true }
  let ex ← callExists m1
  if ex then
    .error (.typeError "this.query(...).where(...).delete is not a function")
  else
    pure (m1, [])

/-- The failure closure built inside `deleteModel` (source lines 457-467,
unreachable because of the missing `delete` method): on status 422 or 403
it clears syncing and resets the attributes. -/
def deleteModelOnError (m : ModelState) (code : Int) : ModelState :=
  if code == 422 || code == 403 then reset { m with syncing := false } else m

end ModelState

/-! Section: Derived definitions used by the theorems -/

/-- Embeds `iterDecrement k b` applies `decrementPage` `k` times. -/
def iterDecrement : Nat → Builder → Except JsError Builder
  | 0, b => .ok b
  | k + 1, b => (Builder.decrementPage b).bind (iterDecrement k)

/-- A fresh non-existent model with one attribute, as built by
`new Model({id: 5})`. -/
def sampleFreshModel : ModelState :=
  ⟨"/", "id", "id", [], [], false, false,
    [⟨"created_at", .accessorProp, false⟩, ⟨"updated_at", .accessorProp, false⟩,
      ⟨"id", .dataProp (.num 5), true⟩]⟩

/-- An existing model holding `id = 5`, hydrated from the server. -/
def sampleExistingModel : ModelState :=
  ⟨"/", "id", "id", [("id", .num 5)], [("id", .num 5)], false, true,
    [⟨"created_at", .accessorProp, false⟩, ⟨"updated_at", .accessorProp, false⟩,
      ⟨"id", .accessorProp, true⟩]⟩

/-- The addresses occurring directly in a value. -/
def JSVal.addrs : JSVal → List Addr
  | .ref a => [a]
  | .momentOf v => v.addrs
  | _ => []

/-- The addresses occurring directly in a heap cell. -/
def HObj.addrs : HObj → List Addr
  | .arr xs => (xs.map JSVal.addrs).flatten
  | .obj fs => (fs.map (fun p => p.2.addrs)).flatten

/-- Every address of the value lies below `n`. -/
def valBound (n : Nat) (v : JSVal) : Prop := ∀ a ∈ v.addrs, a < n

/-- Well-formed heap: every cell address and every address referenced from a
cell lies below the next fresh address. -/
def heapWF (h : Heap) : Prop :=
  ∀ p ∈ h.cells, p.1 < h.next ∧ ∀ b ∈ HObj.addrs p.2, b < h.next

/-- Well-formed builder state over a heap: the heap is well-formed and every
stored constraint and variable value only references allocated cells. -/
def builderWF (h : Heap) (b : Builder) : Prop :=
  heapWF h ∧ (∀ c ∈ b.constraints, valBound h.next c.value) ∧
    (∀ it ∈ b.appends, valBound h.next it.value)

/-- Two heaps agree on every address below `n`. -/
def agreeBelow (n : Nat) (h1 h2 : Heap) : Prop :=
  ∀ a, a < n → h1.lookup a = h2.lookup a

/-- Cells stored below `n` only reference addresses below `n`. -/
def lookupBound (n : Nat) (h : Heap) : Prop :=
  ∀ a, a < n → ∀ o, h.lookup a = some o → ∀ b ∈ HObj.addrs o, b < n

/-- The observable content of the stored constraint for a filter: what any
subsequent `getConstraintValue` call returns, up to the fresh addresses of
the copy it allocates. -/
def constraintDenote (fuel : Nat) (h : Heap) (b : Builder) (filter : String) : JSTree :=
  match Builder.getConstraint b filter with
  | some c => resolveVal fuel h c.value
  | none => JSTree.null

/-! Section: Helper lemmas -/

theorem find?_updateFirstVar (l : List Variable) (name : String) (v : JSVal) :
    (Builder.updateFirstVar l name v).find? (fun it => it.name == name) =
      (l.find? (fun it => it.name == name)).map (fun _ => ⟨name, v⟩) := by
  induction l with
  | nil => rfl
  | cons it rest ih =>
    by_cases h : it.name = name
    · simp [Builder.updateFirstVar, List.find?, h]
    · simp only [Builder.updateFirstVar, beq_iff_eq, h, ite_false, List.find?_cons_of_neg,
        ne_eq, not_false_iff]
      exact ih

theorem getVar_setVarValue (b : Builder) (name : String) (v : JSVal) :
    (b.setVarValue name v).getVar name = (b.getVar name).map (fun _ => ⟨name, v⟩) := by
  simp [Builder.setVarValue, Builder.getVar, find?_updateFirstVar]

theorem currentPage_setVarValue_page (b : Builder) (v : JSVal) (it : Variable)
    (h : b.getVar "page" = some it) : (b.setVarValue "page" v).currentPage = .ok v := by
  simp [Builder.currentPage, getVar_setVarValue, h]

theorem incrementPage_spec (b : Builder) (n : Int) (h : b.currentPage = .ok (.num n)) :
    ∃ b1, b.incrementPage = .ok b1 ∧ b1.currentPage = .ok (.num (n + 1)) := by
  rcases hg : b.getVar "page" with _ | it
  · simp [Builder.currentPage, hg] at h
  · have hv : it.value = .num n := by
      have := h
      simp only [Builder.currentPage, hg, Except.ok.injEq] at this
      exact this
    refine ⟨b.setVarValue "page" (.num (n + 1)), ?_, ?_⟩
    · have h1 : b.incrementPage = b.setPage (jsPlus1 (.num n)) := by
        unfold Builder.incrementPage
        rw [h]
        rfl
      rw [h1]
      simp [Builder.setPage, hg, jsPlus1, jsToNumber]
    · exact currentPage_setVarValue_page b _ it hg

theorem decrementPage_spec (b : Builder) (n : Int) (h : b.currentPage = .ok (.num n)) :
    ∃ b2, b.decrementPage = .ok b2 ∧ b2.currentPage = .ok (.num (n - 1)) := by
  rcases hg : b.getVar "page" with _ | it
  · simp [Builder.currentPage, hg] at h
  · have hv : it.value = .num n := by
      have := h
      simp only [Builder.currentPage, hg, Except.ok.injEq] at this
      exact this
    refine ⟨b.setVarValue "page" (.num (n - 1)), ?_, ?_⟩
    · have h1 : b.decrementPage = b.setPage (jsMinus1 (.num n)) := by
        unfold Builder.decrementPage
        rw [h]
        rfl
      rw [h1]
      simp [Builder.setPage, hg, jsMinus1, jsToNumber]
    · exact currentPage_setVarValue_page b _ it hg

theorem iterDecrement_spec (k : Nat) :
    ∀ (b : Builder) (n : Int), b.currentPage = .ok (.num n) →
      ∃ bk, iterDecrement k b = .ok bk ∧ bk.currentPage = .ok (.num (n - k)) := by
  induction k with
  | zero => intro b n h; exact ⟨b, rfl, by simpa using h⟩
  | succ k ih =>
    intro b n h
    obtain ⟨b1, hb1, hp1⟩ := decrementPage_spec b n h
    obtain ⟨bk, hbk, hpk⟩ := ih b1 (n - 1) hp1
    refine ⟨bk, ?_, ?_⟩
    · simp [iterDecrement, hb1, Except.bind, hbk]
    · rw [hpk]
      congr 1
      push_cast
      ring_nf

theorem exceptBindOk {ε α β : Type} (a : α) (f : α → Except ε β) :
    (do let x ← (Except.ok a : Except ε α); f x) = f a := rfl

theorem exceptPure {ε α : Type} (a : α) : (pure a : Except ε α) = Except.ok a := rfl

/-! Section: The claims -/

/-- Claim C1, counterexample: on a freshly constructed builder the variable
`page` is pre-seeded, so `where("mock_filter","mock_value")` followed by
`append("page", 5)` does not succeed: it throws DuplicateVariableException,
and no query string is produced. -/
theorem claim_C1_counterexample :
    (Builder.«where» mkBuilder "mock_filter" (.str "mock_value")).append "page" (.num 5) =
      .error (.duplicateVariable "Variable \"page\" has already been appended!") := by
  rfl

/-- Claim C1, amended: `append("page", 5)` after `where("mock_filter",
"mock_value")` throws DuplicateVariableException because `page` is
pre-seeded; updating the page instead (`setPage(5)`) yields the query
string `?filters[mock_filter][]=mock_value&limit=15&page=5`, which also
carries the pre-seeded `limit=15`. -/
theorem claim_C1_amended :
    ((Builder.«where» mkBuilder "mock_filter" (.str "mock_value")).append "page" (.num 5) =
      .error (.duplicateVariable "Variable \"page\" has already been appended!")) ∧
    (((Builder.«where» mkBuilder "mock_filter" (.str "mock_value")).setPage (.num 5)).map
        (Builder.toQueryString 8 emptyHeap) =
      .ok "?filters[mock_filter][]=mock_value&limit=15&page=5") := by
  exact ⟨rfl, rfl⟩

/-- Claim C4: appending a variable whose name already exists always throws
DuplicateVariableException (the builder is returned unchanged since the
exception is thrown before the push), and updating a variable whose name is
not present always throws UnknownVariableException. -/
theorem claim_C4 :
    ∀ (b : Builder) (name : String) (value : JSVal),
      (b.hasVariable name = true →
        b.append name value =
          .error (.duplicateVariable ("Variable \"" ++ name ++ "\" has already been appended!"))) ∧
      (b.hasVariable name = false →
        b.updateVariable name value =
          .error (.unknownVariable ("Cannot update unknown variable with name \"" ++ name ++ "\"!"))) := by
  intro b name value
  constructor
  · intro h
    simp [Builder.append, h]
  · intro h
    simp [Builder.updateVariable, h]

/-- Claim C4, witness: on a fresh builder, `page` exists and appending it
throws, while `foo` does not exist and updating it throws. -/
theorem claim_C4_witness :
    mkBuilder.append "page" (.num 5) =
      .error (.duplicateVariable ("Variable \"" ++ "page" ++ "\" has already been appended!")) ∧
    mkBuilder.updateVariable "foo" (.num 1) =
      .error (.unknownVariable ("Cannot update unknown variable with name \"" ++ "foo" ++ "\"!")) :=
  ⟨(claim_C4 mkBuilder "page" (.num 5)).1 (by decide),
    (claim_C4 mkBuilder "foo" (.num 1)).2 (by decide)⟩

/-- Claim C7: a freshly constructed builder has `getLimit() = 15`,
`currentPage() = 1` and `orderingBy() = null`. -/
theorem claim_C7 :
    mkBuilder.getLimit = .num 15 ∧
    mkBuilder.currentPage = .ok (.num 1) ∧
    ∀ (fuel : Nat) (h : Heap), (Builder.orderingBy fuel h mkBuilder).1 = .null :=
  ⟨rfl, rfl, fun _ _ => rfl⟩

/-- Claim C8: when the page variable holds the integer `n`, `incrementPage`
makes `currentPage` return exactly `n + 1` and `decrementPage` exactly
`n - 1`; iterating `decrementPage` `k` times yields `n - k`, with no lower
bound, so from a non-negative page the counter reaches 0 and then negative
values. -/
theorem claim_C8 :
    ∀ (b : Builder) (n : Int), b.currentPage = .ok (.num n) →
      (∃ b1, b.incrementPage = .ok b1 ∧ b1.currentPage = .ok (.num (n + 1))) ∧
      (∃ b2, b.decrementPage = .ok b2 ∧ b2.currentPage = .ok (.num (n - 1))) ∧
      (∀ k : Nat, ∃ bk, iterDecrement k b = .ok bk ∧ bk.currentPage = .ok (.num (n - k))) ∧
      (0 ≤ n → ∃ bz, iterDecrement n.toNat b = .ok bz ∧ bz.currentPage = .ok (.num 0)) ∧
      (0 ≤ n → ∃ bm, iterDecrement (n.toNat + 1) b = .ok bm ∧ bm.currentPage = .ok (.num (-1))) := by
  intro b n h
  refine ⟨incrementPage_spec b n h, decrementPage_spec b n h, fun k => iterDecrement_spec k b n h,
    ?_, ?_⟩
  · intro hn
    obtain ⟨bz, h1, h2⟩ := iterDecrement_spec n.toNat b n h
    refine ⟨bz, h1, ?_⟩
    rwa [Int.toNat_of_nonneg hn, sub_self] at h2
  · intro hn
    obtain ⟨bm, h1, h2⟩ := iterDecrement_spec (n.toNat + 1) b n h
    refine ⟨bm, h1, ?_⟩
    have : (n - (n.toNat + 1 : Nat) : Int) = -1 := by
      push_cast
      rw [Int.toNat_of_nonneg hn]
      ring
    rwa [this] at h2

/-- Claim C8, witness: on the fresh builder (page 1) one decrement reaches
page 0. -/
theorem claim_C8_witness :
    (mkBuilder.decrementPage).map Builder.currentPage = .ok (.ok (.num 0)) := by
  obtain ⟨b2, h1, h2⟩ := (claim_C8 mkBuilder 1 rfl).2.1
  rw [h1, Except.map]
  simpa using h2

/-- Claim C6: `loadNextPage` throws MissingQueryBuilderException when no
builder is set or when the limit is -1; otherwise it increments the page
and issues the query, and a failed fetch decrements the page back to its
pre-call value. -/
theorem claim_C6 :
    (∀ outcome, ModelCollection.loadNextPage none outcome =
      .error (.missingQueryBuilder
        "Cannot load next page; no query builder set for model collection!")) ∧
    (∀ (b : Builder) (outcome : FetchOutcome), b.getLimit = .num (-1) →
      ModelCollection.loadNextPage (some b) outcome =
        .error (.missingQueryBuilder
          "Cannot load next page; no query builder set for model collection!")) ∧
    (∀ (b : Builder) (n : Int), jsStrictEq b.getLimit (.num (-1)) = false →
      b.currentPage = .ok (.num n) →
      (∃ b1, ModelCollection.loadNextPage (some b) .success = .ok (b1, true) ∧
        b1.currentPage = .ok (.num (n + 1))) ∧
      (∃ b2, ModelCollection.loadNextPage (some b) .failure = .ok (b2, true) ∧
        b2.currentPage = .ok (.num n))) := by
  refine ⟨fun _ => rfl, ?_, ?_⟩
  · intro b outcome h
    simp [ModelCollection.loadNextPage, h, jsStrictEq]
  · intro b n hlim hpage
    obtain ⟨b1, hb1, hp1⟩ := incrementPage_spec b n hpage
    constructor
    · exact ⟨b1, by simp [ModelCollection.loadNextPage, hlim, hb1, exceptBindOk], hp1⟩
    · obtain ⟨b2, hb2, hp2⟩ := decrementPage_spec b1 (n + 1) hp1
      refine ⟨b2, by simp [ModelCollection.loadNextPage, hlim, hb1, hb2, exceptBindOk], ?_⟩
      simpa using hp2

/-- Claim C6, witness: a builder whose limit is -1 makes `loadNextPage`
throw, and on the fresh builder a failed fetch leaves the page at 1. -/
theorem claim_C6_witness :
    ModelCollection.loadNextPage (some ⟨[], [⟨"limit", .num (-1)⟩, ⟨"page", .num 1⟩]⟩) .success =
      .error (.missingQueryBuilder
        "Cannot load next page; no query builder set for model collection!") ∧
    (ModelCollection.loadNextPage (some mkBuilder) .failure).map (fun r => r.1.currentPage) =
      .ok (.ok (.num 1)) := by
  constructor
  · exact claim_C6.2.1 ⟨[], [⟨"limit", .num (-1)⟩, ⟨"page", .num 1⟩]⟩ .success rfl
  · obtain ⟨b2, h1, h2⟩ := (claim_C6.2.2 mkBuilder 1 (by decide) rfl).2
    rw [h1, Except.map]
    simpa using h2

theorem assocSet_of_not_mem {κ α : Type} [DecidableEq κ] (l : List (κ × α)) (k : κ) (v : α)
    (h : k ∉ l.map Prod.fst) : assocSet l k v = l ++ [(k, v)] := by
  induction l with
  | nil => rfl
  | cons p rest ih =>
    obtain ⟨pk, pv⟩ := p
    have hne : ¬ pk = k := by
      intro e
      exact h (by simp [e])
    have h2 : k ∉ rest.map Prod.fst := fun hm => h (by simp [hm])
    show (if pk = k then (pk, v) :: rest else (pk, pv) :: assocSet rest k v) = _
    rw [if_neg hne, ih h2]
    rfl

theorem parseHeadersAux (hs : List (String × String)) :
    ∀ acc : List (String × String), ((acc ++ hs).map Prod.fst).Nodup →
      hs.foldl (fun acc p => assocSet acc p.1 p.2) acc = acc ++ hs := by
  induction hs with
  | nil => intro acc _; simp
  | cons p t ih =>
    intro acc h
    have hk : p.1 ∉ acc.map Prod.fst := by
      intro hmem
      rw [List.map_append, List.nodup_append] at h
      exact h.2.2 hmem (by simp)
    have hstep : assocSet acc p.1 p.2 = acc ++ [p] := by
      rw [assocSet_of_not_mem acc p.1 p.2 hk]
    rw [List.foldl_cons, hstep, ih (acc ++ [p]) (by simpa using h)]
    simp

/-- Claim C9, counterexample: a request carrying the same header name twice
does not have both entries forwarded — `_parseHeaders` folds the ordered
list into a name-keyed object, so the first entry is overwritten and
dropped from the transport call. -/
theorem claim_C9_counterexample :
    (JqueryHttpDriver.execute ⟨[("X-Custom", "a"), ("X-Custom", "b")], "json", "GET", "/"⟩).headers =
      [("X-Custom", "b")] ∧
    ("X-Custom", "a") ∉
      (JqueryHttpDriver.execute
        ⟨[("X-Custom", "a"), ("X-Custom", "b")], "json", "GET", "/"⟩).headers :=
  ⟨rfl, by decide⟩

/-- Claim C9, amended: when the header names of a request are pairwise
distinct, the driver forwards every header entry unchanged to the transport
call; with duplicate names the entries are collapsed name-by-name, the last
value winning. -/
theorem claim_C9_amended :
    ∀ r : HttpRequest, (r.headers.map Prod.fst).Nodup →
      JqueryHttpDriver.execute r = ⟨r.headers, r.dataType, r.method, r.url⟩ := by
  intro r h
  have hp : JqueryHttpDriver._parseHeaders r.headers = r.headers := by
    have := parseHeadersAux r.headers [] (by simpa using h)
    simpa using this
  simp [JqueryHttpDriver.execute, hp]

/-- Claim C9, witness: distinct-name headers are forwarded in full. -/
theorem claim_C9_witness :
    JqueryHttpDriver.execute ⟨[("Accept", "application/json"), ("X-Custom", "b")], "json", "GET", "/"⟩ =
      ⟨[("Accept", "application/json"), ("X-Custom", "b")], "json", "GET", "/"⟩ :=
  claim_C9_amended ⟨[("Accept", "application/json"), ("X-Custom", "b")], "json", "GET", "/"⟩
    (by decide)

/-- Claim C10: calling `deleteModel` on a model that does not exist (and
whose `exists` method is not shadowed) sets the syncing flag, issues no
request (the issued-request list stays empty, so neither callback can ever
run), and changes nothing else; `isSyncing()` remains true afterwards. -/
theorem claim_C10 :
    ∀ m : ModelState, ModelState.findProp m.props "exists" = none → m.existsFlag = false →
      ModelState.deleteModel m = .ok ({ m with syncing := true }, []) ∧
      ModelState.isSyncing { m with syncing := true } = true := by
  intro m h1 h2
  refine ⟨?_, rfl⟩
  simp [ModelState.deleteModel, ModelState.callExists, h1, h2, exceptBindOk, exceptPure]

/-- Claim C10, witness: deleting the fresh model only sets its syncing
flag. -/
theorem claim_C10_witness :
    ModelState.deleteModel sampleFreshModel = .ok ({ sampleFreshModel with syncing := true }, []) ∧
    ModelState.isSyncing { sampleFreshModel with syncing := true } = true :=
  claim_C10 sampleFreshModel rfl rfl

/-- Claim C3: the rollback the claim describes can never run.  For every
existing model, `deleteModel` evaluates `this.query().where(...).delete(...)`,
but the builder defines `deleteResults` and no method named `delete`, so a
TypeError is thrown before any request is issued; the failure closure that
would clear syncing and reset the attributes on 422/403 (embedded from the
source as `deleteModelOnError`) is unreachable dead code, although it does
implement exactly the rollback the claim states. -/
theorem claim_C3_code_evaluation :
    (∀ m : ModelState, ModelState.findProp m.props "exists" = none → m.existsFlag = true →
      ModelState.deleteModel m =
        .error (.typeError "this.query(...).where(...).delete is not a function")) ∧
    (∀ (m : ModelState) (code : Int), code = 422 ∨ code = 403 →
      ModelState.deleteModelOnError m code = ModelState.reset { m with syncing := false }) := by
  constructor
  · intro m h1 h2
    simp [ModelState.deleteModel, ModelState.callExists, h1, h2, exceptBindOk, exceptPure]
  · intro m code h
    rcases h with h | h <;> simp [ModelState.deleteModelOnError, h]

/-- Claim C3, witness: on a concrete existing model the delete attempt is a
TypeError, and the dead failure closure would have performed the reset. -/
theorem claim_C3_witness :
    ModelState.deleteModel sampleExistingModel =
      .error (.typeError "this.query(...).where(...).delete is not a function") ∧
    ModelState.deleteModelOnError sampleExistingModel 422 =
      ModelState.reset { sampleExistingModel with syncing := false } :=
  ⟨claim_C3_code_evaluation.1 sampleExistingModel rfl rfl,
    claim_C3_code_evaluation.2 sampleExistingModel 422 (Or.inl rfl)⟩

/-- Claim C2: first half confirmed, second half refuted by evaluation.  A
fresh `Model({id: 5, first_name: "Marcus"})` reports every supplied
attribute dirty; but after a successful `save()` (server answers 200 and
the model re-hydrates from the echoed record) `dirty()` is NOT empty: the
original snapshot stays empty because `_hydrate` only records originals
when `exists()` is already true, while the insert path sets the exists flag
only after hydration (and the response model also leaks an `exists`
attribute assigned by `encapsulateData`). -/
theorem claim_C2_code_evaluation :
    ((ModelState.mkModel [("id", .num 5), ("first_name", .str "Marcus")]).map ModelState.dirty =
      .ok [("id", .num 5), ("first_name", .str "Marcus")]) ∧
    (((ModelState.mkModel [("id", .num 5), ("first_name", .str "Marcus")]).bind
        (fun m => ModelState.save m (.ok [[("id", .num 5), ("first_name", .str "Marcus")]]))).map
        ModelState.dirty =
      .ok [("id", .num 5), ("first_name", .str "Marcus"), ("exists", .bool true)]) ∧
    (((ModelState.mkModel [("id", .num 5), ("first_name", .str "Marcus")]).bind
        (fun m => ModelState.save m (.ok [[("id", .num 5), ("first_name", .str "Marcus")]]))).map
        (fun m => m.original) = .ok []) :=
  ⟨rfl, rfl, rfl⟩

/-! Section: Heap isolation lemmas for claim C5 -/

theorem assocGet_mem {κ α : Type} [DecidableEq κ] {l : List (κ × α)} {k : κ} {v : α}
    (h : assocGet l k = some v) : (k, v) ∈ l := by
  induction l with
  | nil => simp [assocGet] at h
  | cons p rest ih =>
    obtain ⟨pk, pv⟩ := p
    by_cases hk : pk = k
    · subst hk
      simp [assocGet] at h
      subst h
      exact List.mem_cons_self _ _
    · simp only [assocGet, if_neg hk] at h
      exact List.mem_cons_of_mem _ (ih h)

theorem assocGet_assocSet_ne {κ α : Type} [DecidableEq κ] (l : List (κ × α)) (k0 k : κ)
    (v : α) (h : k ≠ k0) : assocGet (assocSet l k0 v) k = assocGet l k := by
  induction l with
  | nil =>
    have hne : ¬ k0 = k := fun e => h e.symm
    simp [assocSet, assocGet, hne]
  | cons p rest ih =>
    obtain ⟨pk, pv⟩ := p
    by_cases hk : pk = k0
    · subst hk
      have hne : ¬ pk = k := fun e => h (e.symm)
      simp [assocSet, assocGet, hne]
    · simp only [assocSet, if_neg hk]
      by_cases hpk : pk = k
      · simp [assocGet, hpk]
      · simp only [assocGet, if_neg hpk]
        exact ih

theorem assocGet_append_single_ne {κ α : Type} [DecidableEq κ] (l : List (κ × α)) (k0 : κ)
    (v0 : α) (k : κ) (h : k ≠ k0) : assocGet (l ++ [(k0, v0)]) k = assocGet l k := by
  induction l with
  | nil =>
    have hne : ¬ k0 = k := fun e => h e.symm
    simp [assocGet, hne]
  | cons p rest ih =>
    obtain ⟨pk, pv⟩ := p
    by_cases hpk : pk = k
    · simp [assocGet, hpk]
    · simp only [List.cons_append, assocGet, if_neg hpk]
      exact ih

theorem lookup_write_ne (h : Heap) (a0 : Addr) (o : HObj) (a : Addr) (hne : a ≠ a0) :
    (h.write a0 o).lookup a = h.lookup a :=
  assocGet_assocSet_ne h.cells a0 a o hne

theorem agreeBelow_write (h : Heap) (n : Nat) (a : Addr) (o : HObj) (ha : n ≤ a) :
    agreeBelow n (h.write a o) h :=
  fun a2 h2 => lookup_write_ne h a o a2 (Nat.ne_of_lt (lt_of_lt_of_le h2 ha))

theorem lookupBound_of_heapWF (h : Heap) (hwf : heapWF h) : lookupBound h.next h :=
  fun a _ o hlook => (hwf (a, o) (assocGet_mem hlook)).2

theorem resolveVal_agree (fuel : Nat) : ∀ (h1 h2 : Heap) (n : Nat) (v : JSVal),
    agreeBelow n h1 h2 → lookupBound n h2 → valBound n v →
    resolveVal fuel h1 v = resolveVal fuel h2 v := by
  induction fuel with
  | zero => intro h1 h2 n v _ _ _; cases v <;> rfl
  | succ fuel ih =>
    intro h1 h2 n v hag hlb hvb
    cases v with
    | ref a =>
      have ha : a < n := hvb a (by simp [JSVal.addrs])
      have heq := hag a ha
      simp only [resolveVal]
      rw [heq]
      cases ho : h2.lookup a with
      | none => rfl
      | some o =>
        have hbound := hlb a ha o ho
        cases o with
        | arr xs =>
          refine congrArg JSTree.arr (List.map_congr_left ?_)
          intro x hx
          refine ih h1 h2 n x hag hlb ?_
          intro a2 ha2
          refine hbound a2 ?_
          exact List.mem_flatten.mpr ⟨JSVal.addrs x, List.mem_map_of_mem _ hx, ha2⟩
        | obj fs =>
          refine congrArg JSTree.obj (List.map_congr_left ?_)
          intro p hp
          have h22 : resolveVal fuel h1 p.2 = resolveVal fuel h2 p.2 := by
            refine ih h1 h2 n p.2 hag hlb ?_
            intro a2 ha2
            refine hbound a2 ?_
            exact List.mem_flatten.mpr ⟨p.2.addrs, List.mem_map_of_mem _ hp, ha2⟩
          rw [h22]
    | momentOf w =>
      exact congrArg JSTree.momentOf
        (ih h1 h2 n w hag hlb (fun a2 ha2 => hvb a2 (by simpa [JSVal.addrs] using ha2)))
    | undefVal => rfl
    | null => rfl
    | nan => rfl
    | bool b => rfl
    | num m => rfl
    | str t => rfl

theorem toQueryString_agree (fuel : Nat) (h1 h2 : Heap) (n : Nat) (b : Builder)
    (hag : agreeBelow n h1 h2) (hlb : lookupBound n h2)
    (hc : ∀ c ∈ b.constraints, valBound n c.value)
    (hv : ∀ it ∈ b.appends, valBound n it.value) :
    Builder.toQueryString fuel h1 b = Builder.toQueryString fuel h2 b := by
  unfold Builder.toQueryString
  have e1 : b.constraints.map (fun c => (c.filter, resolveVal fuel h1 c.value)) =
      b.constraints.map (fun c => (c.filter, resolveVal fuel h2 c.value)) := by
    refine List.map_congr_left ?_
    intro c hcm
    rw [resolveVal_agree fuel h1 h2 n c.value hag hlb (hc c hcm)]
  have e2 : b.appends.map (fun it => (it.name, resolveVal fuel h1 it.value)) =
      b.appends.map (fun it => (it.name, resolveVal fuel h2 it.value)) := by
    refine List.map_congr_left ?_
    intro it him
    rw [resolveVal_agree fuel h1 h2 n it.value hag hlb (hv it him)]
  rw [e1, e2]

theorem alloc_next (h : Heap) (o : HObj) : (h.alloc o).2.next = h.next + 1 := rfl

theorem lookup_alloc_lt (h : Heap) (o : HObj) (a : Addr) (ha : a < h.next) :
    (h.alloc o).2.lookup a = h.lookup a :=
  assocGet_append_single_ne h.cells h.next o a (Nat.ne_of_lt ha)

mutual

theorem allocTree_post : ∀ (t : JSTree) (h : Heap),
    h.next ≤ (allocTree t h).2.next ∧
    (∀ a, a < h.next → (allocTree t h).2.lookup a = h.lookup a) ∧
    (∀ a ∈ (allocTree t h).1.addrs, h.next ≤ a)
  | .undefVal, h =>
    ⟨Nat.le_refl _, fun _ _ => rfl, by intro a2 ha2; simp [allocTree, JSVal.addrs] at ha2⟩
  | .null, h =>
    ⟨Nat.le_refl _, fun _ _ => rfl, by intro a2 ha2; simp [allocTree, JSVal.addrs] at ha2⟩
  | .nan, h =>
    ⟨Nat.le_refl _, fun _ _ => rfl, by intro a2 ha2; simp [allocTree, JSVal.addrs] at ha2⟩
  | .bool b, h =>
    ⟨Nat.le_refl _, fun _ _ => rfl, by intro a2 ha2; simp [allocTree, JSVal.addrs] at ha2⟩
  | .num n, h =>
    ⟨Nat.le_refl _, fun _ _ => rfl, by intro a2 ha2; simp [allocTree, JSVal.addrs] at ha2⟩
  | .str t, h =>
    ⟨Nat.le_refl _, fun _ _ => rfl, by intro a2 ha2; simp [allocTree, JSVal.addrs] at ha2⟩
  | .missing, h =>
    ⟨Nat.le_refl _, fun _ _ => rfl, by intro a2 ha2; simp [allocTree, JSVal.addrs] at ha2⟩
  | .momentOf t, h => by
    have hp := allocTree_post t h
    rcases hres : allocTree t h with ⟨v, h1⟩
    rw [hres] at hp
    obtain ⟨hle, hlook, haddr⟩ := hp
    dsimp only at hle hlook haddr
    simp only [allocTree, hres]
    exact ⟨hle, hlook, by intro a2 ha2; exact haddr a2 (by simpa [JSVal.addrs] using ha2)⟩
  | .arr xs, h => by
    have hp := allocTreeList_post xs h
    rcases hres : allocTreeList xs h with ⟨vs, h1⟩
    rw [hres] at hp
    obtain ⟨hle, hlook⟩ := hp
    dsimp only at hle hlook
    simp only [allocTree, hres]
    refine ⟨?_, ?_, ?_⟩
    · rw [alloc_next]
      exact le_trans hle (Nat.le_succ _)
    · intro a2 ha2
      rw [lookup_alloc_lt h1 _ a2 (lt_of_lt_of_le ha2 hle)]
      exact hlook a2 ha2
    · intro a2 ha2
      have he : a2 = h1.next := by simpa [Heap.alloc, JSVal.addrs] using ha2
      rw [he]
      exact hle
  | .obj fs, h => by
    have hp := allocTreeFields_post fs h
    rcases hres : allocTreeFields fs h with ⟨gs, h1⟩
    rw [hres] at hp
    obtain ⟨hle, hlook⟩ := hp
    dsimp only at hle hlook
    simp only [allocTree, hres]
    refine ⟨?_, ?_, ?_⟩
    · rw [alloc_next]
      exact le_trans hle (Nat.le_succ _)
    · intro a2 ha2
      rw [lookup_alloc_lt h1 _ a2 (lt_of_lt_of_le ha2 hle)]
      exact hlook a2 ha2
    · intro a2 ha2
      have he : a2 = h1.next := by simpa [Heap.alloc, JSVal.addrs] using ha2
      rw [he]
      exact hle

theorem allocTreeList_post : ∀ (ts : List JSTree) (h : Heap),
    h.next ≤ (allocTreeList ts h).2.next ∧
    (∀ a, a < h.next → (allocTreeList ts h).2.lookup a = h.lookup a)
  | [], h => ⟨Nat.le_refl _, fun _ _ => rfl⟩
  | t :: ts, h => by
    have hp1 := allocTree_post t h
    rcases hres1 : allocTree t h with ⟨v, h1⟩
    rw [hres1] at hp1
    obtain ⟨hle1, hlook1, _⟩ := hp1
    have hp2 := allocTreeList_post ts h1
    rcases hres2 : allocTreeList ts h1 with ⟨vs, h2⟩
    rw [hres2] at hp2
    obtain ⟨hle2, hlook2⟩ := hp2
    dsimp only at hle1 hlook1 hle2 hlook2
    simp only [allocTreeList, hres1, hres2]
    constructor
    · exact le_trans hle1 hle2
    · intro a2 ha2
      rw [hlook2 a2 (lt_of_lt_of_le ha2 hle1), hlook1 a2 ha2]

theorem allocTreeFields_post : ∀ (fs : List (String × JSTree)) (h : Heap),
    h.next ≤ (allocTreeFields fs h).2.next ∧
    (∀ a, a < h.next → (allocTreeFields fs h).2.lookup a = h.lookup a)
  | [], h => ⟨Nat.le_refl _, fun _ _ => rfl⟩
  | (k, t) :: ts, h => by
    have hp1 := allocTree_post t h
    rcases hres1 : allocTree t h with ⟨v, h1⟩
    rw [hres1] at hp1
    obtain ⟨hle1, hlook1, _⟩ := hp1
    have hp2 := allocTreeFields_post ts h1
    rcases hres2 : allocTreeFields ts h1 with ⟨vs, h2⟩
    rw [hres2] at hp2
    obtain ⟨hle2, hlook2⟩ := hp2
    dsimp only at hle1 hlook1 hle2 hlook2
    simp only [allocTreeFields, hres1, hres2]
    constructor
    · exact le_trans hle1 hle2
    · intro a2 ha2
      rw [hlook2 a2 (lt_of_lt_of_le ha2 hle1), hlook1 a2 ha2]

end

/-- Claim C5, counterexample: `getVariable` returns the stored value itself,
not a copy.  With the variable `x` holding a reference to the array `[1]`,
`getVariable` returns that very reference, and mutating the referenced array
changes the result of a subsequent `toQueryString` call. -/
theorem claim_C5_counterexample :
    Builder.getVariable ⟨[], [⟨"limit", .num 15⟩, ⟨"page", .num 1⟩, ⟨"x", .ref 0⟩]⟩ "x" .null =
      .ref 0 ∧
    Builder.toQueryString 8 ⟨[(0, .arr [.num 1])], 1⟩
        ⟨[], [⟨"limit", .num 15⟩, ⟨"page", .num 1⟩, ⟨"x", .ref 0⟩]⟩ =
      "?limit=15&page=1&x[]=1" ∧
    Builder.toQueryString 8 (Heap.write ⟨[(0, .arr [.num 1])], 1⟩ 0 (.arr [.num 2]))
        ⟨[], [⟨"limit", .num 15⟩, ⟨"page", .num 1⟩, ⟨"x", .ref 0⟩]⟩ =
      "?limit=15&page=1&x[]=2" ∧
    ("?limit=15&page=1&x[]=2" : String) ≠ "?limit=15&page=1&x[]=1" := by
  refine ⟨rfl, rfl, rfl, ?_⟩
  decide

/-- Claim C5, amended: the copy isolation holds for `getConstraintValue`
(and, by the same cloning, `orderingBy`), not for `getVariable`.  On a
well-formed builder state the value `getConstraintValue` returns lives
entirely at fresh addresses, and writing at any fresh address — in
particular mutating that returned copy — changes neither `toQueryString`,
nor the denotation of any stored variable (what `getVariable` exposes), nor
the denotation of any stored constraint (what any later
`getConstraintValue` call copies out). -/
theorem claim_C5_amended :
    ∀ (fuel : Nat) (h : Heap) (b : Builder) (filter : String) (a : Addr) (o : HObj),
      builderWF h b → h.next ≤ a →
      (∀ a2 ∈ (Builder.getConstraintValue fuel h b filter).1.addrs, h.next ≤ a2) ∧
      (Builder.toQueryString fuel
          ((Builder.getConstraintValue fuel h b filter).2.write a o) b =
        Builder.toQueryString fuel h b) ∧
      (∀ name : String,
        resolveVal fuel ((Builder.getConstraintValue fuel h b filter).2.write a o)
            (b.getVariable name .null) =
          resolveVal fuel h (b.getVariable name .null)) ∧
      (∀ f2 : String,
        constraintDenote fuel ((Builder.getConstraintValue fuel h b filter).2.write a o) b f2 =
          constraintDenote fuel h b f2) := by
  intro fuel h b filter a o hwf ha
  obtain ⟨hheap, hcs, hvs⟩ := hwf
  have key : agreeBelow h.next (Builder.getConstraintValue fuel h b filter).2 h ∧
      (∀ a2 ∈ (Builder.getConstraintValue fuel h b filter).1.addrs, h.next ≤ a2) := by
    unfold Builder.getConstraintValue
    cases hg : Builder.getConstraint b filter with
    | none =>
      exact ⟨fun _ _ => rfl, by intro a2 ha2; simp [JSVal.addrs] at ha2⟩
    | some c =>
      by_cases hobj : Builder.isObjectVal c.value = true
      · simp only [hobj, if_true]
        have hp := allocTree_post (resolveVal fuel h c.value) h
        rcases hres : allocTree (resolveVal fuel h c.value) h with ⟨v, h1⟩
        rw [hres] at hp
        obtain ⟨hle, hlook, haddr⟩ := hp
        dsimp only at hle hlook haddr
        simp only [cloneVal, hres]
        exact ⟨fun a2 h2 => hlook a2 h2, haddr⟩
      · simp only [Bool.not_eq_true] at hobj
        simp only [hobj, Bool.false_eq_true, if_false]
        refine ⟨fun _ _ => rfl, ?_⟩
        intro a2 ha2
        have hempty : JSVal.addrs c.value = [] := by
          cases hv : c.value <;> rw [hv] at hobj <;>
            simp_all [Builder.isObjectVal, JSVal.addrs]
        rw [hempty] at ha2
        simp at ha2
  obtain ⟨hagree1, hfresh⟩ := key
  have hagree2 : agreeBelow h.next ((Builder.getConstraintValue fuel h b filter).2.write a o)
      (Builder.getConstraintValue fuel h b filter).2 :=
    agreeBelow_write _ h.next a o ha
  have hagree : agreeBelow h.next ((Builder.getConstraintValue fuel h b filter).2.write a o) h :=
    fun a2 hlt => (hagree2 a2 hlt).trans (hagree1 a2 hlt)
  have hlb : lookupBound h.next h := lookupBound_of_heapWF h hheap
  refine ⟨hfresh, ?_, ?_, ?_⟩
  · exact toQueryString_agree fuel _ h h.next b hagree hlb hcs hvs
  · intro name
    have hvb : valBound h.next (b.getVariable name .null) := by
      unfold Builder.getVariable
      cases hgv : Builder.getVar b name with
      | some it => exact hvs it (List.mem_of_find?_eq_some hgv)
      | none =>
        intro a2 ha2
        simp [JSVal.addrs] at ha2
    exact resolveVal_agree fuel _ h h.next _ hagree hlb hvb
  · intro f2
    unfold constraintDenote
    cases hg2 : Builder.getConstraint b f2 with
    | none => rfl
    | some c2 =>
      exact resolveVal_agree fuel _ h h.next c2.value hagree hlb
        (hcs c2 (List.mem_of_find?_eq_some hg2))

/-- Claim C5, witness: on a builder with one object-valued constraint over a
one-cell heap, writing at the fresh address 1 (where the copy lives) leaves
`toQueryString` unchanged. -/
theorem claim_C5_witness :
    Builder.toQueryString 8
        ((Builder.getConstraintValue 8 ⟨[(0, .arr [.num 1])], 1⟩
            ⟨[⟨"f", .ref 0⟩], [⟨"limit", .num 15⟩, ⟨"page", .num 1⟩]⟩ "f").2.write 1
          (.arr [.num 9]))
        ⟨[⟨"f", .ref 0⟩], [⟨"limit", .num 15⟩, ⟨"page", .num 1⟩]⟩ =
      Builder.toQueryString 8 ⟨[(0, .arr [.num 1])], 1⟩
        ⟨[⟨"f", .ref 0⟩], [⟨"limit", .num 15⟩, ⟨"page", .num 1⟩]⟩ :=
  (claim_C5_amended 8 ⟨[(0, .arr [.num 1])], 1⟩
    ⟨[⟨"f", .ref 0⟩], [⟨"limit", .num 15⟩, ⟨"page", .num 1⟩]⟩ "f" 1 (.arr [.num 9])
    (by
      refine ⟨?_, ?_, ?_⟩ <;>
        simp only [builderWF, heapWF, valBound, HObj.addrs, JSVal.addrs] <;> decide)
    (by decide)).2.1

end JsModel
